import Mathlib

/-!
Verification of the Timesketch date-expression normalizer (the "chip"
value parsing/serialization of the API client's search module) and of the
`tsctl` administrative commands.

The search module itself is not among the visible sources (only its test
file is), so the normalizer below is modelled from the specification's
description of the accepted shapes and of the two wire formats.  The
`tsctl` commands are embedded from `timesketch/tsctl.py`, with the ORM
session modelled as an explicit list of rows.
-/

namespace Timesketch

/-- Numeric value of a two-digit field given by its two characters. -/
def twoDigitVal (a b : Char) : Nat := (a.toNat - 48) * 10 + (b.toNat - 48)

/-- Modelled from the spec: shape check for the date part `YYYY-MM-DD`
(§4.1 of the spec; the module `timesketch_api_client/search.py` is missing
from the sources, only its tests are present).  The year, month and day
characters must be digits, the separators hyphens, and month/day must lie
in the ISO-8601 ranges. -/
def dateShapeOk : List Char → Bool
  | [y1, y2, y3, y4, h1, m1, m2, h2, d1, d2] =>
    y1.isDigit && y2.isDigit && y3.isDigit && y4.isDigit &&
    h1 == '-' && h2 == '-' &&
    m1.isDigit && m2.isDigit && d1.isDigit && d2.isDigit &&
    decide (1 ≤ twoDigitVal m1 m2 ∧ twoDigitVal m1 m2 ≤ 12 ∧
            1 ≤ twoDigitVal d1 d2 ∧ twoDigitVal d1 d2 ≤ 31)
  | _ => false

/-- Modelled from the spec: shape check for the time part `HH:MM:SS`
(§4.1; `search.py` missing from the sources). -/
def timeShapeOk : List Char → Bool
  | [h1, h2, c1, m1, m2, c2, s1, s2] =>
    h1.isDigit && h2.isDigit && c1 == ':' &&
    m1.isDigit && m2.isDigit && c2 == ':' &&
    s1.isDigit && s2.isDigit &&
    decide (twoDigitVal h1 h2 ≤ 23 ∧ twoDigitVal m1 m2 ≤ 59 ∧ twoDigitVal s1 s2 ≤ 59)
  | _ => false

/-- Modelled from the spec: both `T` and a plain space are valid separators
between the date part and the time part (§4.1). -/
def sepOk (c : Option Char) : Bool := c == some 'T' || c == some ' '

/-- Modelled from the spec: an optional trailing `Z` is stripped (§4.1). -/
def stripZ (cs : List Char) : List Char :=
  if cs.getLast? = some 'Z' then cs.dropLast else cs

/-- Modelled from the spec: a fractional-second component is accepted only
when it is the literal suffix `.000`; it is then stripped.  Any other
fractional component is a validation failure (§3/§4.1). -/
def stripFrac (cs : List Char) : Option (List Char) :=
  if cs.any (fun c => c == '.') then
    if (cs.dropWhile (fun c => !(c == '.'))).tail == ['0', '0', '0'] then
      some (cs.takeWhile (fun c => !(c == '.')))
    else none
  else some cs

/-- The canonical midnight time suffix `T00:00:00`. -/
def tzero : List Char := ['T', '0', '0', ':', '0', '0', ':', '0', '0']

/-- Modelled from the spec: `parse_timestamp` on the character list level.
After stripping an optional `Z` and an optional `.000` suffix the input
must be a bare date `YYYY-MM-DD` (normalized by appending `T00:00:00`) or a
date-time with `T` or space separator (normalized to the `T` separator);
anything else is the single validation failure (§4.1, §7). -/
def parseTimestampChars (cs0 : List Char) : Option (List Char) :=
  match stripFrac (stripZ cs0) with
  | none => none
  | some cs =>
    if cs.length = 10 then
      if dateShapeOk cs then some (cs ++ tzero) else none
    else if cs.length = 19 then
      if dateShapeOk (cs.take 10) && sepOk cs[10]? && timeShapeOk (cs.drop 11) then
        some (cs.take 10 ++ 'T' :: cs.drop 11)
      else none
    else none

/-- Modelled from the spec: `parse_timestamp` on strings.  `none` stands
for the single error kind `InvalidDateExpression` (§7). -/
def parse_timestamp (s : String) : Option String :=
  (parseTimestampChars s.toList).map fun cs => String.mk cs

/-- Exact splitting of a character list at every occurrence of the
separator, as Python's `str.split(sep)` does (empty pieces kept). -/
def splitOnChar (sep : Char) : List Char → List (List Char)
  | [] => [[]]
  | c :: rest =>
    if c == sep then [] :: splitOnChar sep rest
    else
      match splitOnChar sep rest with
      | [] => [[c]]
      | h :: t => (c :: h) :: t

/-- A canonical timestamp `YYYY-MM-DDTHH:MM:SS` (spec glossary): 19
characters, valid date and time shapes, and the literal `T` separator. -/
def isCanonicalTimestamp (cs : List Char) : Bool :=
  cs.length == 19 && dateShapeOk (cs.take 10) && cs[10]? == some 'T' &&
    timeShapeOk (cs.drop 11)

/-- Modelled from the spec: a date-range chip (§3).  The metadata fields
`active`, `field`, `operator` carry the fixed defaults of the uniform chip
record; `type` is the constant `datetime_range` discriminator. -/
structure DateRangeChip where
  start_time : Option String := none
  end_time : Option String := none
  active : Bool := true
  field : String := ""
  operator : String := "must"
  deriving DecidableEq, Repr

/-- Modelled from the spec: assigning a start time re-validates and
re-normalizes; failure yields no new chip state (§3, §9). -/
def DateRangeChip.set_start_time (c : DateRangeChip) (s : String) :
    Option DateRangeChip :=
  (parse_timestamp s).map fun t => { c with start_time := some t }

/-- Modelled from the spec: assigning an end time re-validates and
re-normalizes; failure yields no new chip state (§3, §9). -/
def DateRangeChip.set_end_time (c : DateRangeChip) (s : String) :
    Option DateRangeChip :=
  (parse_timestamp s).map fun t => { c with end_time := some t }

/-- Modelled from the spec: serialized range value `"{start},{end}"` (§3). -/
def DateRangeChip.value (c : DateRangeChip) : String :=
  c.start_time.getD "" ++ ("," ++ c.end_time.getD "")

/-- Modelled from the spec: `from_dict`-style deserialization of a range
chip reconstructs both semantic fields purely from the wire value
`"<start>,<end>"` (§6); any parse failure is the single validation
failure, producing no chip state (§7, §9). -/
def DateRangeChip.from_dict (c : DateRangeChip) (v : String) :
    Option DateRangeChip :=
  match splitOnChar ',' v.toList with
  | [s, e] =>
    match parseTimestampChars s, parseTimestampChars e with
    | some st, some et =>
      some { c with start_time := some (String.mk st),
                    end_time := some (String.mk et) }
    | _, _ => none
  | _ => none

/-- Modelled from the spec: a date-interval chip (§3) with defaults
`before = 5`, `after = 5`, `unit = m`. -/
structure DateIntervalChip where
  date : Option String := none
  before : Nat := 5
  after : Nat := 5
  unit : Char := 'm'
  active : Bool := true
  field : String := ""
  operator : String := "must"
  deriving DecidableEq, Repr

/-- Modelled from the spec: assigning the date re-validates and
re-normalizes; failure yields no new chip state (§3, §9). -/
def DateIntervalChip.set_date (c : DateIntervalChip) (s : String) :
    Option DateIntervalChip :=
  (parse_timestamp s).map fun t => { c with date := some t }

/-- Digits-to-number conversion for the before/after counts. -/
def digitsToNat (cs : List Char) : Nat :=
  cs.foldl (fun acc c => acc * 10 + (c.toNat - 48)) 0

/-- Modelled from the spec: one offset token `-<N><unit>` or `+<M><unit>`
of the interval wire format (§4.1): the expected sign, a non-empty digit
run and a single-letter unit code; a non-integer count is a validation
failure. -/
def parseOffsetToken (sign : Char) (tok : List Char) : Option (Nat × Char) :=
  match tok with
  | [] => none
  | c :: rest =>
    if c == sign then
      match rest.getLast? with
      | none => none
      | some u =>
        if !(rest.dropLast).isEmpty && (rest.dropLast).all Char.isDigit &&
            u.isAlpha then
          some (digitsToNat rest.dropLast, u)
        else none
    else none

/-- Modelled from the spec: `parse_interval_expression` decomposes the wire
format `"<timestamp> -<N><unit> +<M><unit>"` into `(date, before, after,
unit)` (§4.1).  The timestamp may itself contain a space separator, giving
four space-separated tokens; the shared unit is taken from the before
part. -/
def parse_interval_expression (s : String) :
    Option (String × Nat × Nat × Char) :=
  let go : List Char → List Char → List Char →
      Option (String × Nat × Nat × Char) :=
    fun ts btok atok =>
      match parseTimestampChars ts, parseOffsetToken '-' btok,
          parseOffsetToken '+' atok with
      | some d, some (b, u), some (a, _) => some (String.mk d, b, a, u)
      | _, _, _ => none
  match splitOnChar ' ' s.toList with
  | [ts, btok, atok] => go ts btok atok
  | [dpart, tpart, btok, atok] => go (dpart ++ ' ' :: tpart) btok atok
  | _ => none

/-- Modelled from the spec: serialized interval value
`"{date} -{before}{unit} +{after}{unit}"` (§3). -/
def DateIntervalChip.value (c : DateIntervalChip) : String :=
  c.date.getD "" ++ (" -" ++ toString c.before ++ String.singleton c.unit ++
    " +" ++ toString c.after ++ String.singleton c.unit)

/-- Modelled from the spec: `from_dict`-style deserialization of an
interval chip reconstructs all semantic fields purely from the wire value
(§6); failure produces no chip state (§7, §9). -/
def DateIntervalChip.from_dict (c : DateIntervalChip) (v : String) :
    Option DateIntervalChip :=
  (parse_interval_expression v).map fun r =>
    { c with date := some r.1, before := r.2.1, after := r.2.2.1,
             unit := r.2.2.2 }

/-! ## The `tsctl` commands

The ORM-backed user and sketch tables are modelled as explicit lists of
rows; `db_session.add` plus `commit` on a fetched row is in-place mutation
of that row.  `set_password` stores the supplied password (the password
hashing of the ORM model is an injective external collaborator and is
modelled as the identity). -/

/-- A row of the user table, with the fields the `tsctl` commands touch. -/
structure DBUser where
  username : String
  password : String := ""
  active : Bool := true
  admin : Bool := false
  deriving DecidableEq, Repr

/-- Apply `f` to the first row whose username matches, as
`User.query.filter_by(username=...).first()` followed by mutation does. -/
def updateFirst (db : List DBUser) (n : String) (f : DBUser → DBUser) :
    List DBUser :=
  match db with
  | [] => []
  | u :: rest =>
    if u.username == n then f u :: rest else u :: updateFirst rest n f

/-- `AddUser.run` of `tsctl.py`: `User.get_or_create(username=...)` fetches
the existing row or creates a fresh one, `set_password` stores the supplied
password, and the commit persists it. -/
def add_user (db : List DBUser) (n p : String) : List DBUser :=
  if (db.find? fun u => u.username == n).isSome then
    updateFirst db n (fun u => { u with password := p })
  else
    db ++ [{ username := n, password := p }]

/-- `DisableUser.run` / `EnableUser.run` of `tsctl.py`: fetch the first row
by username; if none exists return without touching the database, else set
its active bit. -/
def set_user_active (db : List DBUser) (n : String) (b : Bool) :
    List DBUser :=
  if (db.find? fun u => u.username == n).isSome then
    updateFirst db n (fun u => { u with active := b })
  else db

/-- `DisableUser.run`: set the active bit of the named user to false. -/
def disable_user (db : List DBUser) (n : String) : List DBUser :=
  set_user_active db n false

/-- `EnableUser.run`: set the active bit of the named user to true. -/
def enable_user (db : List DBUser) (n : String) : List DBUser :=
  set_user_active db n true

/-- A row of the sketch table, with the fields `ListSketches.run` reads
(`get_status.status` is the row's current status string). -/
structure Sketch where
  id : Nat
  name : String
  description : String
  status : String
  deriving DecidableEq, Repr

/-- The name under which `ListSketches.run` prints a sketch: archived
sketches get ` (archived)` appended, all others their plain name. -/
def sketchDisplayName (s : Sketch) : String :=
  if s.status == "archived" then s.name ++ " (archived)" else s.name

/-- `ListSketches.run` of `tsctl.py`: one printed row `(id, name,
description)` per sketch, skipping sketches whose status is `deleted`. -/
def list_sketches (sketches : List Sketch) : List (Nat × String × String) :=
  sketches.filterMap fun s =>
    if s.status == "deleted" then none
    else some (s.id, sketchDisplayName s, s.description)

/-- Characters that may occur in a canonical timestamp: digits and the
literal separators. -/
def canonChar (c : Char) : Bool :=
  c.isDigit || c == '-' || c == ':' || c == 'T'

/-! ## Helper lemmas about the normalizer -/

theorem canonChar_beq_eq_false {c d : Char} (h : canonChar c = true)
    (hd : canonChar d = false) : (c == d) = false := by
  rw [beq_eq_false_iff_ne]
  rintro rfl
  rw [h] at hd
  cases hd

theorem all_canonChar_of_dateShapeOk {l : List Char}
    (h : dateShapeOk l = true) : l.all canonChar = true := by
  unfold dateShapeOk at h
  split at h
  · simp only [Bool.and_eq_true, beq_iff_eq] at h
    simp_all [canonChar]
  · exact absurd h (by simp)

theorem all_canonChar_of_timeShapeOk {l : List Char}
    (h : timeShapeOk l = true) : l.all canonChar = true := by
  unfold timeShapeOk at h
  split at h
  · simp only [Bool.and_eq_true, beq_iff_eq] at h
    simp_all [canonChar]
  · exact absurd h (by simp)

theorem stripZ_of_all_canonChar {cs : List Char}
    (h : cs.all canonChar = true) : stripZ cs = cs := by
  unfold stripZ
  rw [if_neg]
  intro hz
  have hmem : 'Z' ∈ cs := List.mem_of_getLast?_eq_some hz
  have := List.all_eq_true.mp h _ hmem
  exact absurd this (by decide)

theorem any_dot_eq_false_of_all_canonChar {cs : List Char}
    (h : cs.all canonChar = true) :
    cs.any (fun c => c == '.') = false := by
  rw [List.any_eq_false]
  intro c hc
  have := List.all_eq_true.mp h _ hc
  simp [canonChar_beq_eq_false this (show canonChar '.' = false by decide)]

theorem stripFrac_of_all_canonChar {cs : List Char}
    (h : cs.all canonChar = true) : stripFrac cs = some cs := by
  unfold stripFrac
  rw [any_dot_eq_false_of_all_canonChar h]
  simp

theorem canonical_decomp {cs : List Char}
    (hlen : cs.length = 19) (hsep : cs[10]? = some 'T') :
    cs = cs.take 10 ++ 'T' :: cs.drop 11 := by
  have h10 : (10 : Nat) < cs.length := by omega
  conv_lhs => rw [← List.take_append_drop 10 cs]
  congr 1
  rw [List.drop_eq_getElem_cons h10]
  rw [List.getElem?_eq_getElem h10] at hsep
  rw [Option.some.injEq] at hsep
  rw [hsep]

theorem all_canonChar_of_canonical {cs : List Char}
    (h : isCanonicalTimestamp cs = true) : cs.all canonChar = true := by
  unfold isCanonicalTimestamp at h
  simp only [Bool.and_eq_true, beq_iff_eq] at h
  obtain ⟨⟨⟨hlen, hdate⟩, hsep⟩, htime⟩ := h
  rw [canonical_decomp hlen hsep]
  rw [List.all_append, List.all_cons]
  rw [all_canonChar_of_dateShapeOk hdate, all_canonChar_of_timeShapeOk htime]
  decide

theorem parse_canonical {cs : List Char}
    (h : isCanonicalTimestamp cs = true) :
    parseTimestampChars cs = some cs := by
  have hall := all_canonChar_of_canonical h
  unfold isCanonicalTimestamp at h
  simp only [Bool.and_eq_true, beq_iff_eq] at h
  obtain ⟨⟨⟨hlen, hdate⟩, hsep⟩, htime⟩ := h
  have hsep' : sepOk cs[10]? = true := by rw [hsep]; decide
  unfold parseTimestampChars
  rw [stripZ_of_all_canonChar hall, stripFrac_of_all_canonChar hall]
  simp only [hlen, hdate, htime, hsep', Bool.and_true, Bool.true_and]
  norm_num
  exact (canonical_decomp hlen hsep).symm

theorem length_of_dateShapeOk {l : List Char} (h : dateShapeOk l = true) :
    l.length = 10 := by
  unfold dateShapeOk at h
  split at h
  · simp
  · exact absurd h (by simp)

theorem parse_bare_date {cs : List Char} (h : dateShapeOk cs = true) :
    parseTimestampChars cs = some (cs ++ tzero) := by
  have hall := all_canonChar_of_dateShapeOk h
  have hlen := length_of_dateShapeOk h
  unfold parseTimestampChars
  rw [stripZ_of_all_canonChar hall, stripFrac_of_all_canonChar hall]
  simp only [hlen, h]
  norm_num

theorem stripZ_getLast_ne {cs : List Char} (h : cs.getLast? ≠ some 'Z') :
    stripZ cs = cs := by
  unfold stripZ
  rw [if_neg h]

theorem stripZ_concat_z (cs : List Char) : stripZ (cs ++ ['Z']) = cs := by
  unfold stripZ
  rw [if_pos (List.getLast?_concat cs), List.dropLast_concat]

theorem stripFrac_reject {body frac : List Char}
    (hb : body.all (fun c => !(c == '.')) = true)
    (hne : frac ≠ ['0', '0', '0']) :
    stripFrac (body ++ '.' :: frac) = none := by
  have hany : (body ++ '.' :: frac).any (fun c => c == '.') = true := by
    simp [List.any_append]
  have hdrop :
      (body ++ '.' :: frac).dropWhile (fun c => !(c == '.')) = '.' :: frac := by
    rw [List.dropWhile_append_of_pos (fun a ha => List.all_eq_true.mp hb a ha)]
    rw [List.dropWhile_cons_of_neg (by simp)]
  simp [stripFrac, hany, hdrop, hne]

theorem getLast_append_dot_ne_z {body frac : List Char}
    (hz : frac.getLast? ≠ some 'Z') :
    (body ++ '.' :: frac).getLast? ≠ some 'Z' := by
  rw [List.getLast?_append]
  cases frac with
  | nil => simp
  | cons f fr =>
    rw [List.getLast?_cons_cons]
    cases hx : (f :: fr).getLast? with
    | none => simp at hx
    | some x =>
      rw [Option.or_some]
      rw [hx] at hz
      exact hz

theorem parse_output_canonChar {cs out : List Char}
    (h : parseTimestampChars cs = some out) : out.all canonChar = true := by
  unfold parseTimestampChars at h
  split at h
  · exact absurd h (by simp)
  · split at h
    · split at h
      next hd =>
        rw [Option.some.injEq] at h
        subst h
        rw [List.all_append, all_canonChar_of_dateShapeOk hd]
        decide
      · exact absurd h (by simp)
    · split at h
      · split at h
        next hcond =>
          simp only [Bool.and_eq_true] at hcond
          obtain ⟨⟨hd, -⟩, ht⟩ := hcond
          rw [Option.some.injEq] at h
          subst h
          rw [List.all_append, List.all_cons,
            all_canonChar_of_dateShapeOk hd, all_canonChar_of_timeShapeOk ht]
          decide
        · exact absurd h (by simp)
      · exact absurd h (by simp)

/-! ## The claims -/

/-- Claim C1: for every valid canonical timestamp, parsing the wire-format
string yields the timestamp unchanged; in particular deserializing the wire
string `2020-12-12T12:12:12,2020-12-12T12:12:12` into a range chip makes
both `start_time` and `end_time` equal `2020-12-12T12:12:12`, and
re-serializing the chip reproduces the identical wire string. -/
theorem c1_canonical_round_trip (cs : List Char)
    (h : isCanonicalTimestamp cs = true) :
    parseTimestampChars cs = some cs ∧
    DateRangeChip.from_dict {} "2020-12-12T12:12:12,2020-12-12T12:12:12" =
      some { start_time := some "2020-12-12T12:12:12",
             end_time := some "2020-12-12T12:12:12" } ∧
    (DateRangeChip.from_dict {}
        "2020-12-12T12:12:12,2020-12-12T12:12:12").map DateRangeChip.value =
      some "2020-12-12T12:12:12,2020-12-12T12:12:12" :=
  ⟨parse_canonical h, by decide, by decide⟩

/-- Witness for C1 at the concrete canonical timestamp of the spec. -/
theorem c1_canonical_round_trip_witness :
    isCanonicalTimestamp "2020-12-12T12:12:12".toList = true ∧
    parseTimestampChars "2020-12-12T12:12:12".toList =
      some "2020-12-12T12:12:12".toList :=
  ⟨by decide, (c1_canonical_round_trip "2020-12-12T12:12:12".toList
      (by decide)).1⟩

/-- Claim C2: an input timestamp whose fractional-second component is
anything other than exactly `000` is rejected with the single validation
error (modelled as `none`), whether or not it carries a trailing `Z`; in
particular assigning `2020-11-30T12:12:12.001` to an interval chip and
deserializing the range wire value
`2020-12-12T12:12:12.001,2020-12-12T12:12:12.001` both fail. -/
theorem c2_fraction_rejected (body frac : List Char)
    (hb : body.all (fun c => !(c == '.')) = true)
    (hne : frac ≠ ['0', '0', '0'])
    (hz : frac.getLast? ≠ some 'Z') :
    parseTimestampChars (body ++ '.' :: frac) = none ∧
    parseTimestampChars (body ++ '.' :: (frac ++ ['Z'])) = none ∧
    DateIntervalChip.set_date {} "2020-11-30T12:12:12.001" = none ∧
    DateRangeChip.from_dict {}
      "2020-12-12T12:12:12.001,2020-12-12T12:12:12.001" = none := by
  refine ⟨?_, ?_, by decide, by decide⟩
  · unfold parseTimestampChars
    rw [stripZ_getLast_ne (getLast_append_dot_ne_z hz),
      stripFrac_reject hb hne]
  · unfold parseTimestampChars
    have hassoc : body ++ '.' :: (frac ++ ['Z']) =
        (body ++ '.' :: frac) ++ ['Z'] := by simp
    rw [hassoc, stripZ_concat_z, stripFrac_reject hb hne]

/-- Witness for C2 at the fractional component `001`. -/
theorem c2_fraction_rejected_witness :
    ("2020-11-30T12:12:12".toList.all (fun c => !(c == '.')) = true ∧
      ['0', '0', '1'] ≠ ['0', '0', '0'] ∧
      ['0', '0', '1'].getLast? ≠ some 'Z') ∧
    parseTimestampChars ("2020-11-30T12:12:12".toList ++
      '.' :: ['0', '0', '1']) = none :=
  ⟨⟨by decide, by decide, by decide⟩,
    (c2_fraction_rejected "2020-11-30T12:12:12".toList ['0', '0', '1']
      (by decide) (by decide) (by decide)).1⟩

/-- Claim C3: a timestamp carrying the literal `.000` fraction and a
trailing `Z` is accepted and normalized by stripping both, and whatever the
input was, an accepted timestamp never contains a fractional-second or
timezone character; the serialized chip values of the spec's examples are
correspondingly free of them. -/
theorem c3_normalized_output (cs out : List Char)
    (h : parseTimestampChars cs = some out) :
    out.all (fun c => !(c == '.') && !(c == 'Z')) = true ∧
    parse_timestamp "2020-11-30T12:12:12.000Z" =
      some "2020-11-30T12:12:12" ∧
    (DateRangeChip.from_dict {}
        "2020-12-12T12:12:12.000Z,2020-12-12T12:12:12.000Z").map
        DateRangeChip.value =
      some "2020-12-12T12:12:12,2020-12-12T12:12:12" ∧
    (DateIntervalChip.from_dict {}
        "2021-11-30T12:12:12.000Z -1m +1m").map DateIntervalChip.value =
      some "2021-11-30T12:12:12 -1m +1m" := by
  refine ⟨?_, by decide, by decide, by decide⟩
  have hall := parse_output_canonChar h
  rw [List.all_eq_true] at hall ⊢
  intro x hx
  have hc := hall x hx
  rw [canonChar_beq_eq_false hc (show canonChar '.' = false by decide),
    canonChar_beq_eq_false hc (show canonChar 'Z' = false by decide)]
  decide

/-- Witness for C3 at the spec's `.000Z` example. -/
theorem c3_normalized_output_witness :
    parseTimestampChars "2020-11-30T12:12:12.000Z".toList =
      some "2020-11-30T12:12:12".toList ∧
    "2020-11-30T12:12:12".toList.all
      (fun c => !(c == '.') && !(c == 'Z')) = true :=
  ⟨by decide, (c3_normalized_output "2020-11-30T12:12:12.000Z".toList
      "2020-11-30T12:12:12".toList (by decide)).1⟩

/-- Claim C4: parsing the interval wire expression `2021-11-30 -1d +1d`
yields date `2021-11-30T00:00:00`, before 1, after 1, unit `d`; and in
general a bare date (no time component) is normalized by appending
`T00:00:00`. -/
theorem c4_bare_date_normalized (cs : List Char)
    (h : dateShapeOk cs = true) :
    parse_interval_expression "2021-11-30 -1d +1d" =
      some ("2021-11-30T00:00:00", 1, 1, 'd') ∧
    parseTimestampChars cs = some (cs ++ "T00:00:00".toList) :=
  ⟨by decide, by
    rw [parse_bare_date h, show tzero = "T00:00:00".toList from by decide]⟩

/-- Witness for C4 at the bare date `2021-11-30`. -/
theorem c4_bare_date_normalized_witness :
    dateShapeOk "2021-11-30".toList = true ∧
    parseTimestampChars "2021-11-30".toList =
      some ("2021-11-30".toList ++ "T00:00:00".toList) :=
  ⟨by decide, (c4_bare_date_normalized "2021-11-30".toList (by decide)).2⟩

/-- Claim C5: a `DateIntervalChip` with only its date field set uses the
defaults `before = 5`, `after = 5`, `unit = m`, so its serialized wire
value is `"{date} -5m +5m"`. -/
theorem c5_interval_defaults (s d : String)
    (h : parse_timestamp s = some d) :
    ∃ c : DateIntervalChip, DateIntervalChip.set_date {} s = some c ∧
      c.date = some d ∧ c.before = 5 ∧ c.after = 5 ∧ c.unit = 'm' ∧
      c.value = d ++ " -5m +5m" := by
  refine ⟨{ date := some d }, ?_, rfl, rfl, rfl, rfl, ?_⟩
  · unfold DateIntervalChip.set_date
    rw [h]
    rfl
  · have h5 : (" -" ++ toString (5 : Nat) ++ String.singleton 'm' ++ " +" ++
        toString (5 : Nat) ++ String.singleton 'm') = " -5m +5m" := by decide
    simp [DateIntervalChip.value, h5]

/-- Witness for C5 at the timestamp of the interval-chip test. -/
theorem c5_interval_defaults_witness :
    ∃ c : DateIntervalChip,
      DateIntervalChip.set_date {} "2020-11-30T12:12:12" = some c ∧
      c.date = some "2020-11-30T12:12:12" ∧ c.before = 5 ∧ c.after = 5 ∧
      c.unit = 'm' ∧ c.value = "2020-11-30T12:12:12" ++ " -5m +5m" :=
  c5_interval_defaults "2020-11-30T12:12:12" "2020-11-30T12:12:12"
    (by decide)

/-- Claim C6: timestamp parsing accepts a plain space as well as `T` as
separator: deserializing `2021-11-30 12:12:12 -1m +1m` yields the same
chip state (date `2021-11-30T12:12:12`, before 1, after 1, unit `m`) and
the same T-separated serialized value as `2021-11-30T12:12:12 -1m +1m`. -/
theorem c6_space_separator :
    DateIntervalChip.from_dict {} "2021-11-30 12:12:12 -1m +1m" =
      DateIntervalChip.from_dict {} "2021-11-30T12:12:12 -1m +1m" ∧
    DateIntervalChip.from_dict {} "2021-11-30 12:12:12 -1m +1m" =
      some { date := some "2021-11-30T12:12:12", before := 1, after := 1,
             unit := 'm' } ∧
    (DateIntervalChip.from_dict {} "2021-11-30 12:12:12 -1m +1m").map
        DateIntervalChip.value = some "2021-11-30T12:12:12 -1m +1m" :=
  ⟨by decide, by decide, by decide⟩

/-- Claim C7: a failed date assignment or deserialization propagates the
validation failure with no partial mutation: whether an assignment fails
depends only on the assigned input (so later assignments on a chip whose
assignment failed behave as on a fresh chip), a successful date assignment
leaves `before`, `after` and `unit` untouched, and a successful range
deserialization leaves the metadata fields untouched; a failed operation
produces no chip state at all. -/
theorem c7_no_partial_mutation (c : DateIntervalChip) (r : DateRangeChip)
    (s v : String) :
    (DateIntervalChip.set_date c s = none ↔ parse_timestamp s = none) ∧
    (∀ c', DateIntervalChip.set_date c s = some c' →
      c'.before = c.before ∧ c'.after = c.after ∧ c'.unit = c.unit ∧
      c'.date = parse_timestamp s) ∧
    (∀ r', DateRangeChip.from_dict r v = some r' →
      r'.active = r.active ∧ r'.field = r.field ∧
      r'.operator = r.operator) := by
  refine ⟨?_, ?_, ?_⟩
  · unfold DateIntervalChip.set_date
    exact Option.map_eq_none'
  · intro c' h
    unfold DateIntervalChip.set_date at h
    cases hp : parse_timestamp s with
    | none => rw [hp] at h; cases h
    | some t =>
      rw [hp] at h
      rw [Option.map_some', Option.some.injEq] at h
      subst h
      exact ⟨rfl, rfl, rfl, rfl⟩
  · intro r' h
    unfold DateRangeChip.from_dict at h
    split at h
    · split at h
      · rw [Option.some.injEq] at h
        subst h
        exact ⟨rfl, rfl, rfl⟩
      · cases h
    · cases h

/-- Witness for C7: the failing assignment of the interval-chip test. -/
theorem c7_no_partial_mutation_witness :
    parse_timestamp "20 minutes" = none :=
  (c7_no_partial_mutation {} {} "20 minutes" "").1.mp (by decide)

/-! ## Helper lemmas about the `tsctl` commands -/

theorem updateFirst_length (db : List DBUser) (n : String)
    (f : DBUser → DBUser) : (updateFirst db n f).length = db.length := by
  induction db with
  | nil => rfl
  | cons u rest ih =>
    unfold updateFirst
    split
    · simp
    · simp [ih]

theorem updateFirst_countP (db : List DBUser) (n : String)
    (f : DBUser → DBUser) (p : DBUser → Bool) (hf : ∀ u, p (f u) = p u) :
    (updateFirst db n f).countP p = db.countP p := by
  induction db with
  | nil => rfl
  | cons u rest ih =>
    unfold updateFirst
    split
    · simp [List.countP_cons, hf]
    · simp [List.countP_cons, ih]

theorem updateFirst_prop (db : List DBUser) (n : String)
    (f : DBUser → DBUser) (q : DBUser → Prop)
    (hnd : (db.map DBUser.username).Nodup)
    (hq : ∀ u, u.username = n → q (f u)) :
    ∀ u ∈ updateFirst db n f, u.username = n → q u := by
  induction db with
  | nil => intro u hu; cases hu
  | cons v rest ih =>
    rw [List.map_cons, List.nodup_cons] at hnd
    obtain ⟨hv, hrest⟩ := hnd
    intro u hu hn
    unfold updateFirst at hu
    split at hu
    next heq =>
      rw [List.mem_cons] at hu
      rcases hu with rfl | hu
      · exact hq v (by rw [beq_iff_eq] at heq; exact heq)
      · refine absurd ?_ hv
        rw [beq_iff_eq.mp heq, ← hn]
        exact List.mem_map_of_mem DBUser.username hu
    next heq =>
      rw [List.mem_cons] at hu
      rcases hu with rfl | hu
      · exact absurd (beq_iff_eq.mpr hn) heq
      · exact ih hrest u hu hn

theorem updateFirst_forall₂ (db : List DBUser) (n : String)
    (f : DBUser → DBUser) :
    List.Forall₂ (fun u v => (v = f u ∧ u.username = n) ∨ v = u) db
      (updateFirst db n f) := by
  induction db with
  | nil => exact List.Forall₂.nil
  | cons u rest ih =>
    unfold updateFirst
    split
    next h =>
      exact List.Forall₂.cons (Or.inl ⟨rfl, beq_iff_eq.mp h⟩)
        (List.forall₂_same.mpr fun x _ => Or.inr rfl)
    next h => exact List.Forall₂.cons (Or.inr rfl) ih

theorem countP_username_eq_count (db : List DBUser) (n : String) :
    db.countP (fun u => u.username == n) = (db.map DBUser.username).count n := by
  rw [List.count, List.countP_map]
  rfl

theorem countP_username_of_found {db : List DBUser} {n : String} {u0 : DBUser}
    (hnd : (db.map DBUser.username).Nodup)
    (hf : (db.find? fun u => u.username == n) = some u0) :
    db.countP (fun u => u.username == n) = 1 := by
  have hmem := List.mem_of_find?_eq_some hf
  have hpred := List.find?_some hf
  have hge : 0 < db.countP (fun u => u.username == n) :=
    List.countP_pos_iff.mpr ⟨u0, hmem, hpred⟩
  have hle : db.countP (fun u => u.username == n) ≤ 1 := by
    rw [countP_username_eq_count]
    exact List.nodup_iff_count_le_one.mp hnd n
  omega

theorem set_user_active_frame (db : List DBUser) (n : String) (b : Bool) :
    List.Forall₂ (fun u v => v.username = u.username ∧
      v.password = u.password ∧ v.admin = u.admin ∧
      (u.username ≠ n → v = u)) db (set_user_active db n b) := by
  unfold set_user_active
  split
  · refine (updateFirst_forall₂ db n _).imp ?_
    rintro u v (⟨rfl, hn⟩ | rfl)
    · exact ⟨rfl, rfl, rfl, fun h => absurd hn h⟩
    · exact ⟨rfl, rfl, rfl, fun _ => rfl⟩
  · exact List.forall₂_same.mpr fun x _ => ⟨rfl, rfl, rfl, fun _ => rfl⟩

theorem set_user_active_value (db : List DBUser) (n : String) (b : Bool)
    (hnd : (db.map DBUser.username).Nodup) :
    ∀ u ∈ set_user_active db n b, u.username = n → u.active = b := by
  unfold set_user_active
  split
  next h =>
    exact updateFirst_prop db n _ (fun u => u.active = b) hnd fun u _ => rfl
  next h =>
    intro u hu hn
    have hnone : db.find? (fun u => u.username == n) = none := by
      cases hfind : db.find? fun u => u.username == n with
      | none => rfl
      | some w => rw [hfind] at h; exact absurd rfl h
    exact absurd (beq_iff_eq.mpr hn) (List.find?_eq_none.mp hnone u hu)

theorem set_user_active_no_user (db : List DBUser) (n : String) (b : Bool)
    (h : ∀ u ∈ db, u.username ≠ n) : set_user_active db n b = db := by
  unfold set_user_active
  rw [List.find?_eq_none.mpr fun u hu => by simp [h u hu]]
  simp

/-- Claim C8: `add_user` with an existing username does not fail and does
not create a second user: it overwrites the existing user's password; in
all cases exactly one user with the given username exists afterwards and
its password is the one just supplied. -/
theorem c8_add_user (db : List DBUser) (n p : String)
    (hnd : (db.map DBUser.username).Nodup) :
    (add_user db n p).countP (fun u => u.username == n) = 1 ∧
    (∀ u ∈ add_user db n p, u.username = n → u.password = p) ∧
    ((db.find? fun u => u.username == n).isSome →
      (add_user db n p).length = db.length) := by
  unfold add_user
  cases hf : db.find? fun u => u.username == n with
  | none =>
    simp only [Option.isSome_none, Bool.false_eq_true, if_false]
    refine ⟨?_, ?_, fun h => by cases h⟩
    · rw [List.countP_append,
        List.countP_eq_zero.mpr (List.find?_eq_none.mp hf)]
      simp
    · intro u hu hn
      rw [List.mem_append] at hu
      rcases hu with hu | hu
      · exact absurd (beq_iff_eq.mpr hn) (List.find?_eq_none.mp hf u hu)
      · rw [List.mem_singleton] at hu
        subst hu
        rfl
  | some u0 =>
    simp only [Option.isSome_some, if_true]
    refine ⟨?_, ?_, fun _ => updateFirst_length db n _⟩
    · rw [updateFirst_countP db n (fun u => { u with password := p })
        (fun u => u.username == n) fun u => rfl]
      exact countP_username_of_found hnd hf
    · exact updateFirst_prop db n _ (fun u => u.password = p) hnd fun u _ => rfl

/-- Witness for C8 on a one-user table whose username is re-added. -/
theorem c8_add_user_witness :
    (add_user [{ username := "alice", password := "old" }] "alice"
        "new").countP (fun u => u.username == "alice") = 1 ∧
    (∀ u ∈ add_user [{ username := "alice", password := "old" }] "alice"
        "new", u.username = "alice" → u.password = "new") :=
  ⟨(c8_add_user [{ username := "alice", password := "old" }] "alice" "new"
      (by simp)).1,
    (c8_add_user [{ username := "alice", password := "old" }] "alice" "new"
      (by simp)).2.1⟩

/-- Claim C9: `disable_user` and `enable_user` mutate only the active flag
of the named user (to false and true respectively); every other field of
that user and every other user are unchanged, and when no user with the
given username exists the database is not mutated at all. -/
theorem c9_active_flag_frame (db : List DBUser) (n : String)
    (hnd : (db.map DBUser.username).Nodup) :
    List.Forall₂ (fun u v => v.username = u.username ∧
      v.password = u.password ∧ v.admin = u.admin ∧
      (u.username ≠ n → v = u)) db (disable_user db n) ∧
    List.Forall₂ (fun u v => v.username = u.username ∧
      v.password = u.password ∧ v.admin = u.admin ∧
      (u.username ≠ n → v = u)) db (enable_user db n) ∧
    (∀ u ∈ disable_user db n, u.username = n → u.active = false) ∧
    (∀ u ∈ enable_user db n, u.username = n → u.active = true) ∧
    ((∀ u ∈ db, u.username ≠ n) →
      disable_user db n = db ∧ enable_user db n = db) :=
  ⟨set_user_active_frame db n false, set_user_active_frame db n true,
    set_user_active_value db n false hnd, set_user_active_value db n true hnd,
    fun h => ⟨set_user_active_no_user db n false h,
      set_user_active_no_user db n true h⟩⟩

/-- Witness for C9: disabling or enabling a username that is absent leaves
the one-user table untouched. -/
theorem c9_active_flag_frame_witness :
    disable_user [{ username := "bob", password := "pw" }] "alice" =
      [{ username := "bob", password := "pw" }] ∧
    enable_user [{ username := "bob", password := "pw" }] "alice" =
      [{ username := "bob", password := "pw" }] :=
  (c9_active_flag_frame [{ username := "bob", password := "pw" }] "alice"
    (by simp)).2.2.2.2 (by decide)

/-- Claim C10: `list_sketches` never prints a sketch whose status is
`deleted`; every printed row comes from a non-deleted sketch, every
archived sketch is printed with ` (archived)` appended to its name, and
every other non-deleted sketch is printed under its plain name. -/
theorem c10_list_sketches (sketches : List Sketch) :
    (∀ r ∈ list_sketches sketches, ∃ s, s ∈ sketches ∧
      s.status ≠ "deleted" ∧
      r = (s.id, sketchDisplayName s, s.description)) ∧
    (∀ s ∈ sketches, s.status = "archived" →
      (s.id, s.name ++ " (archived)", s.description) ∈
        list_sketches sketches) ∧
    (∀ s ∈ sketches, s.status ≠ "deleted" → s.status ≠ "archived" →
      (s.id, s.name, s.description) ∈ list_sketches sketches) := by
  refine ⟨?_, ?_, ?_⟩
  · intro r hr
    rw [list_sketches, List.mem_filterMap] at hr
    obtain ⟨s, hs, hf⟩ := hr
    refine ⟨s, hs, ?_, ?_⟩
    · intro hdel
      rw [if_pos (beq_iff_eq.mpr hdel)] at hf
      cases hf
    · by_cases hdel : s.status = "deleted"
      · rw [if_pos (beq_iff_eq.mpr hdel)] at hf
        cases hf
      · rw [if_neg (by simp [hdel])] at hf
        exact (Option.some.inj hf).symm
  · intro s hs harch
    rw [list_sketches, List.mem_filterMap]
    refine ⟨s, hs, ?_⟩
    rw [if_neg (by simp [harch]), sketchDisplayName, if_pos (beq_iff_eq.mpr harch)]
  · intro s hs hdel harch
    rw [list_sketches, List.mem_filterMap]
    refine ⟨s, hs, ?_⟩
    rw [if_neg (by simp [hdel]), sketchDisplayName, if_neg (by simp [harch])]

/-- Witness for C10: an archived sketch is printed with the suffixed
name. -/
theorem c10_list_sketches_witness :
    ((1 : Nat), "a" ++ " (archived)", "d") ∈
      list_sketches
        [{ id := 1, name := "a", description := "d", status := "archived" }] :=
  (c10_list_sketches
      [{ id := 1, name := "a", description := "d", status := "archived" }]).2.1
    { id := 1, name := "a", description := "d", status := "archived" }
    (by simp) (by decide)

end Timesketch
